import Mathlib

/-!
Verification of the geocities-gallery-scraper pipeline.

This file shallowly embeds the two Python modules the claims are about:

* `src/geocities_scraper.py` — the content scraper (`get_burb_cards`,
  `scrape_burb`, `scrape_hood`, `save_hood_data`, `get_scraped_hoods`,
  and the batch loop of `main`), and
* `src/flatten_data.py` — the flattener (`flatten_geocities_data`).

Python strings are modelled as lists of characters (`PyStr := List Char`,
one entry per Unicode code point, which is exactly Python's view of `str`).
The Python string operations used by the source (`str.split`, `str.replace`,
`str.strip`, `str.endswith`, slicing, `in`) are given structural-recursion
models below so that every definition is executable by the kernel.

I/O is abstracted in the standard way for a shallow embedding:

* `requests.get(url)` + `raise_for_status()` + BeautifulSoup extraction of
  the card container elements of the page is one oracle
  `fetch : PyStr → Option (List CardElement)`; `none` models a network
  error or a non-success HTTP status (an exception in the Python source).
* the output directory is an association list `FileSys` from the filename
  stem (the canonical group identifier, per the spec) to the persisted
  group document; a write prepends, and the current content of a file is
  the first binding (`List.lookup`).
* timestamps (`scraped_at`, `generated_at`) and the gzip/JSON encoding of
  the flattener output are ambient effects with no bearing on any claim
  and are not modelled; chunk files are modelled by their decoded content.
-/

namespace Geocities

/-- Decidable equality for `Except`, so that concrete runs of the scraper
can be checked by evaluation. -/
instance {ε α : Type} [DecidableEq ε] [DecidableEq α] : DecidableEq (Except ε α) :=
  fun x y =>
    match x, y with
    | Except.error a, Except.error b =>
      if h : a = b then isTrue (by rw [h])
      else isFalse (by intro hh; injection hh; contradiction)
    | Except.error _, Except.ok _ => isFalse (by intro h; exact Except.noConfusion h)
    | Except.ok _, Except.error _ => isFalse (by intro h; exact Except.noConfusion h)
    | Except.ok a, Except.ok b =>
      if h : a = b then isTrue (by rw [h])
      else isFalse (by intro hh; injection hh; contradiction)

/-- Python strings, one entry per code point. -/
abbrev PyStr := List Char

/-- Embed a Lean string literal as a model string. -/
def pstr (s : String) : PyStr := s.data

/-- Python `str.strip()`: drop whitespace from both ends. -/
def pyStrip (s : PyStr) : PyStr :=
  ((s.dropWhile Char.isWhitespace).reverse.dropWhile Char.isWhitespace).reverse

/-- Worker for `pySplit`; the fuel is an upper bound on the length of the
remaining input, so with fuel `s.length` the `0, s` fallback is unreachable
for a non-empty separator. -/
def pySplitGo (sep : PyStr) : Nat → PyStr → List PyStr
  | _, [] => [[]]
  | 0, s => [s]
  | fuel + 1, c :: rest =>
    if sep.isPrefixOf (c :: rest) then
      [] :: pySplitGo sep fuel (List.drop sep.length (c :: rest))
    else
      match pySplitGo sep fuel rest with
      | [] => [[c]]
      | p :: ps => (c :: p) :: ps

/-- Python `s.split(sep)` for a non-empty separator: split at every
leftmost, non-overlapping occurrence of `sep`; always at least one part. -/
def pySplit (s sep : PyStr) : List PyStr := pySplitGo sep s.length s

/-- Worker for `pyReplace`; fuel as in `pySplitGo`. -/
def pyReplaceGo (old new : PyStr) : Nat → PyStr → PyStr
  | _, [] => []
  | 0, s => s
  | fuel + 1, c :: rest =>
    if old.isPrefixOf (c :: rest) then
      new ++ pyReplaceGo old new fuel (List.drop old.length (c :: rest))
    else
      c :: pyReplaceGo old new fuel rest

/-- Python `s.replace(old, new)` for a non-empty `old`: replace every
leftmost, non-overlapping occurrence. -/
def pyReplace (s old new : PyStr) : PyStr := pyReplaceGo old new s.length s

/-! ## Data model (spec §3) -/

/-- An item record ("card"), as built by `get_burb_cards`. -/
structure Card where
  title : PyStr
  url : PyStr
  last_modified : PyStr
  has_sound : Bool
deriving DecidableEq

/-- A subgroup document, as built by `scrape_burb`. -/
structure Burb where
  name : PyStr
  url : PyStr
  cards : List Card
  total_pages : Nat
deriving DecidableEq

/-- A group document, as built by `scrape_hood` (the `scraped_at`/`base_url`
metadata block added by `save_hood_data` carries a timestamp and is not
modelled). -/
structure HoodData where
  name : PyStr
  description : PyStr
  url : PyStr
  cards : List Card
  total_pages : Nat
  burbs : List Burb
  total_burbs : Nat
deriving DecidableEq

/-- A `GroupSpec` of the configuration: one value of the
`neighborhoods` mapping. -/
structure HoodInfo where
  description : PyStr
  burbs : List PyStr
deriving DecidableEq

/-- The configuration document; the Python dict `neighborhoods` is an
association list in insertion order (`List.lookup` is dict lookup). -/
structure Config where
  base_url : PyStr
  neighborhoods : List (PyStr × HoodInfo)
deriving DecidableEq

/-- One parsed `div.card` container element of a fetched page:
`title_link` is the text of the `<a>` inside `div.card-title` when both
exist, `subtitle` the `get_text()` of `div.card-subtitle` when present. -/
structure CardElement where
  title_link : Option PyStr
  subtitle : Option PyStr
deriving DecidableEq

/-! ## ContentScraper embedding (`src/geocities_scraper.py`) -/

/-- The fixed URL prefix removed by `get_burb_cards`. -/
def wwwGeocities : PyStr := pstr "www.geocities.com/"

/-- The marker the subtitle is split on. -/
def lastModifiedMarker : PyStr := pstr "Last modified:"

/-- The sound glyph detected in titles. -/
def soundGlyph : Char := '🔊'

/-- Per-card extraction: the body of the `for card in card_elements` loop of
`get_burb_cards` (lines 48–76). Returns `none` when no record is appended
for the element. Mirrors: `title = ... if ... else "Untitled"`;
`if subtitle_element:`; `parts = subtitle_text.split('Last modified:')`;
`url = parts[0].strip()` (`len(parts) > 0` always holds);
`url = url.replace('www.geocities.com/', '')`;
`last_modified = parts[1].strip() if len(parts) > 1 else ""`;
`has_sound = '🔊' in title`. -/
def processCard (ce : CardElement) : Option Card :=
  let title := ce.title_link.getD (pstr "Untitled")
  match ce.subtitle with
  | none => none
  | some subtitle_text =>
    let parts := pySplit subtitle_text lastModifiedMarker
    let url0 := pyStrip (parts.headD [])
    let url := pyReplace url0 wwwGeocities []
    let last_modified :=
      match parts with
      | _ :: p1 :: _ => pyStrip p1
      | _ => []
    some { title := title, url := url, last_modified := last_modified,
           has_sound := title.contains soundGlyph }

/-- Accumulation step of the card loop: append the extracted record, if any. -/
def cardStep (acc : List Card) (ce : CardElement) : List Card :=
  match processCard ce with
  | some c => acc ++ [c]
  | none => acc

/-- `get_burb_cards(url)`: fetch the page and extract its cards; a fetch
failure (`fetch url = none`) is caught, logged and yields `[]`. -/
def get_burb_cards (fetch : PyStr → Option (List CardElement)) (url : PyStr) :
    List Card :=
  match fetch url with
  | none => []
  | some elems => elems.foldl cardStep []

/-- `scrape_burb(hood_name, burb_name)`. -/
def scrape_burb (fetch : PyStr → Option (List CardElement))
    (base_url hood_name burb_name : PyStr) : Burb :=
  let burb_url := base_url ++ pstr "/" ++ hood_name ++ pstr "/" ++ burb_name
  let cards := get_burb_cards fetch burb_url
  { name := burb_name, url := burb_url, cards := cards,
    total_pages := cards.length }

/-- The URL fetched by `scrape_burb`. -/
def burbUrl (base_url hood_name burb_name : PyStr) : PyStr :=
  base_url ++ pstr "/" ++ hood_name ++ pstr "/" ++ burb_name

/-- Body of the `for burb_name in burbs_to_scrape` loop of `scrape_hood`:
scrape the burb if it belongs to the hood's configured burbs, else warn and
skip. The second component records the URLs fetched, in order (each
`scrape_burb` performs exactly one fetch, of `burbUrl`). -/
def burbStep (fetch : PyStr → Option (List CardElement))
    (base_url hood_name : PyStr) (hood_burbs : List PyStr)
    (acc : List Burb × List PyStr) (burb_name : PyStr) : List Burb × List PyStr :=
  if hood_burbs.contains burb_name then
    (acc.1 ++ [scrape_burb fetch base_url hood_name burb_name],
     acc.2 ++ [burbUrl base_url hood_name burb_name])
  else acc

/-- The `ValueError` message raised by `scrape_hood`. -/
def notFoundMsg (hood_name : PyStr) : PyStr :=
  pstr "Hood " ++ hood_name ++ pstr " not found in config"

/-- `scrape_hood(hood_name, burbs)` up to (but not including) the
`save_hood_data` call: the raised `ValueError` is the `Except.error` case;
the second component lists the URLs fetched, in order (the hood page first,
then each scraped burb page). `burbs or hood_info['burbs']` uses Python
truthiness, so an explicit empty list also falls back to the configured
burbs. -/
def scrape_hood (fetch : PyStr → Option (List CardElement)) (config : Config)
    (hood_name : PyStr) (burbs : Option (List PyStr)) :
    Except PyStr HoodData × List PyStr :=
  match config.neighborhoods.lookup hood_name with
  | none => (Except.error (notFoundMsg hood_name), [])
  | some hood_info =>
    let hood_url := config.base_url ++ pstr "/" ++ hood_name
    let hood_cards := get_burb_cards fetch hood_url
    let burbs_to_scrape :=
      match burbs with
      | some bs => if bs.isEmpty then hood_info.burbs else bs
      | none => hood_info.burbs
    let sb := burbs_to_scrape.foldl
      (burbStep fetch config.base_url hood_name hood_info.burbs) ([], [])
    (Except.ok { name := hood_name, description := hood_info.description,
                 url := hood_url, cards := hood_cards,
                 total_pages := hood_cards.length, burbs := sb.1,
                 total_burbs := sb.1.length },
     hood_url :: sb.2)

/-- The scraper's output directory: file `<stem>.json` is keyed by its stem
`stem`; the current content of a file is its first binding. -/
abbrev FileSys := List (PyStr × HoodData)

/-- `get_scraped_hoods()`: the filename stems present in the output
directory (used only through membership, as Python uses the set). -/
def get_scraped_hoods (fs : FileSys) : List PyStr := fs.map Prod.fst

/-- `scrape_hood` including its final `save_hood_data` call: on success the
assembled document is persisted under the hood's name before returning. -/
def scrape_hood_save (fetch : PyStr → Option (List CardElement))
    (config : Config) (fs : FileSys) (hood_name : PyStr)
    (burbs : Option (List PyStr)) :
    Except PyStr HoodData × FileSys × List PyStr :=
  match scrape_hood fetch config hood_name burbs with
  | (Except.ok hd, urls) => (Except.ok hd, (hood_name, hd) :: fs, urls)
  | (Except.error e, urls) => (Except.error e, fs, urls)

/-- Body of the `for hood_name in scraper.config['neighborhoods']` loop of
`main`: skip hoods already scraped, otherwise scrape (an exception is
caught and the batch continues). State: (filesystem, URLs fetched so far). -/
def hoodStep (fetch : PyStr → Option (List CardElement)) (config : Config)
    (scraped_hoods : List PyStr) (st : FileSys × List PyStr)
    (p : PyStr × HoodInfo) : FileSys × List PyStr :=
  if scraped_hoods.contains p.1 then st
  else
    let r := scrape_hood_save fetch config st.1 p.1 none
    (r.2.1, st.2 ++ r.2.2)

/-- The full batch of `main` (no `--hood` argument): with `resume` the
already-persisted hoods are read off the output directory first and
skipped. -/
def runBatch (fetch : PyStr → Option (List CardElement)) (config : Config)
    (resume : Bool) (fs0 : FileSys) : FileSys × List PyStr :=
  let scraped_hoods := if resume then get_scraped_hoods fs0 else []
  config.neighborhoods.foldl (hoodStep fetch config scraped_hoods) (fs0, [])

/-! ## Flattener embedding (`src/flatten_data.py`) -/

/-- The provenance tag of a flattened item: `t` is `'h'` or `'b'`, `h` the
group (hood) name, `b` the subgroup (burb) name when `t = 'b'`. -/
structure Source where
  t : Char
  h : PyStr
  b : Option PyStr
deriving DecidableEq

/-- A flattened item (a lossy projection of a card). -/
structure FlatItem where
  title : PyStr
  url : PyStr
  has_sound : Bool
  source : Source
deriving DecidableEq

/-- One directory entry of the flattener's input directory: `content` is the
parsed group document, or `none` when `json.load` (or the subsequent field
access) raises, which the source catches, logs and skips. -/
structure DirFile where
  filename : PyStr
  content : Option HoodData
deriving DecidableEq

/-- Projection of a group-level card (`'t': 'h'`). -/
def hoodItem (hood_name : PyStr) (c : Card) : FlatItem :=
  { title := c.title, url := c.url, has_sound := c.has_sound,
    source := { t := 'h', h := hood_name, b := none } }

/-- Projection of a subgroup card (`'t': 'b'`). -/
def burbItem (hood_name burb_name : PyStr) (c : Card) : FlatItem :=
  { title := c.title, url := c.url, has_sound := c.has_sound,
    source := { t := 'b', h := hood_name, b := some burb_name } }

/-- The two nested append loops of `flatten_geocities_data` (lines 36–59):
append one item per hood card, then one per burb card, onto `acc`. -/
def appendHoodPages (acc : List FlatItem) (hood_name : PyStr) (hd : HoodData) :
    List FlatItem :=
  let acc1 := hd.cards.foldl (fun a c => a ++ [hoodItem hood_name c]) acc
  hd.burbs.foldl
    (fun a burb => burb.cards.foldl
      (fun a2 c => a2 ++ [burbItem hood_name burb.name c]) a) acc1

/-- The items contributed by one parsed group document. -/
def flattenHood (hood_name : PyStr) (hd : HoodData) : List FlatItem :=
  appendHoodPages [] hood_name hd

/-- The `.json` filename suffix. -/
def jsonSuffix : PyStr := pstr ".json"

/-- The filename stem `filename[:-5]`. -/
def stemOf (filename : PyStr) : PyStr := filename.take (filename.length - 5)

/-- Body of the `for filename in os.listdir(input_dir)` loop: skip non-JSON
files; record the stem (before parsing!); on parse success append the
file's items, on failure skip the file. State: (all_pages, hood names in
encounter order — the Python `set` is modelled by deduplicating on use). -/
def fileStep (acc : List FlatItem × List PyStr) (f : DirFile) :
    List FlatItem × List PyStr :=
  if jsonSuffix.isSuffixOf f.filename then
    let hood_name := stemOf f.filename
    let names := acc.2 ++ [hood_name]
    match f.content with
    | some hd => (appendHoodPages acc.1 hood_name hd, names)
    | none => (acc.1, names)
  else acc

/-- The directory scan of `flatten_geocities_data` (lines 17–63). -/
def scanDir (files : List DirFile) : List FlatItem × List PyStr :=
  files.foldl fileStep ([], [])

/-- The items one directory entry contributes to `all_pages`: none for a
corrupt file, the projected items for a parsed one. -/
def fileItems (f : DirFile) : List FlatItem :=
  match f.content with
  | some hd => flattenHood (stemOf f.filename) hd
  | none => []

/-- The flatten metadata (`generated_at` carries a timestamp and is not
modelled). -/
structure Metadata where
  total_pages : Nat
  total_hoods : Nat
  hoods : List PyStr
  chunks : Nat
deriving DecidableEq

/-- Python slice `xs[a:b]` (for `a ≤ b ≤ len xs` as used by the source). -/
def pySlice (xs : List α) (a b : Nat) : List α := (xs.take b).drop a

/-- The chunk layout: chunk `i` is `all_pages[i*chunk_size : min((i+1)*chunk_size, n)]`
for `i < (n + chunk_size - 1) / chunk_size`. -/
def chunksOf (chunk_size : Nat) (xs : List α) : List (List α) :=
  (List.range ((xs.length + chunk_size - 1) / chunk_size)).map
    (fun i => pySlice xs (i * chunk_size) (min ((i + 1) * chunk_size) xs.length))

/-- `sorted(list(hood_names))`: the distinct names, sorted by Python's
string order (code-point lexicographic, i.e. the lexicographic order on
`List Char`). -/
def sortHoods (names : List PyStr) : List PyStr :=
  List.insertionSort (fun a b : PyStr => a ≤ b) names.dedup

/-- `flatten_geocities_data(input_dir, output_file, chunk_size)`: returns
the metadata and the decoded contents of the chunk files
`<base>_chunk_<i>.json.gz`, in index order. -/
def flatten_geocities_data (files : List DirFile) (chunk_size : Nat) :
    Metadata × List (List FlatItem) :=
  let scanned := scanDir files
  let all_pages := scanned.1
  let hood_names := scanned.2
  let total_chunks := (all_pages.length + chunk_size - 1) / chunk_size
  ({ total_pages := all_pages.length,
     total_hoods := hood_names.dedup.length,
     hoods := sortHoods hood_names,
     chunks := total_chunks },
   chunksOf chunk_size all_pages)

/-- Modelled from the spec: the claimed URL computation for C7 — the
pre-marker portion of the subtitle, stripped, with the fixed known prefix
`www.geocities.com/` stripped *only when it occurs at the start*. The code
under scrutiny instead calls `str.replace`, which removes every
occurrence; `spec_url` is the term of comparison for the refinement. -/
def stripPrefixOnce (s pre : PyStr) : PyStr :=
  if pre.isPrefixOf s then s.drop pre.length else s

/-- Modelled from the spec: the URL C7 claims `get_burb_cards` computes. -/
def spec_url (subtitle : PyStr) : PyStr :=
  stripPrefixOnce (pyStrip ((pySplit subtitle lastModifiedMarker).headD []))
    wwwGeocities

/-- A flattened item used to instantiate concrete runs. -/
def itemH : FlatItem :=
  { title := [], url := [], has_sound := false,
    source := { t := 'h', h := [], b := none } }

/-! ## Helper lemmas: append-style folds -/

theorem foldl_append_singleton {α β : Type} (f : β → α) (l : List β) (acc : List α) :
    l.foldl (fun a c => a ++ [f c]) acc = acc ++ l.map f := by
  induction l generalizing acc with
  | nil => simp
  | cons x xs ih => simp [ih]

theorem foldl_nested_append {α β γ : Type} (cards : β → List γ) (g : β → γ → α)
    (l : List β) (acc : List α) :
    l.foldl (fun a b => (cards b).foldl (fun a2 c => a2 ++ [g b c]) a) acc
      = acc ++ l.flatMap (fun b => (cards b).map (g b)) := by
  induction l generalizing acc with
  | nil => simp
  | cons x xs ih =>
    rw [List.foldl_cons, foldl_append_singleton (g x) (cards x) acc, ih]
    simp [List.append_assoc]

theorem appendHoodPages_eq (acc : List FlatItem) (n : PyStr) (hd : HoodData) :
    appendHoodPages acc n hd
      = acc ++ (hd.cards.map (hoodItem n)
          ++ hd.burbs.flatMap (fun b => b.cards.map (burbItem n b.name))) := by
  unfold appendHoodPages
  rw [foldl_append_singleton (hoodItem n) hd.cards acc]
  rw [foldl_nested_append (fun b : Burb => b.cards) (fun b c => burbItem n b.name c)
    hd.burbs (acc ++ hd.cards.map (hoodItem n))]
  rw [List.append_assoc]

theorem flattenHood_eq (n : PyStr) (hd : HoodData) :
    flattenHood n hd
      = hd.cards.map (hoodItem n)
        ++ hd.burbs.flatMap (fun b => b.cards.map (burbItem n b.name)) := by
  unfold flattenHood
  rw [appendHoodPages_eq]
  rfl

theorem appendHoodPages_flatten (acc : List FlatItem) (n : PyStr) (hd : HoodData) :
    appendHoodPages acc n hd = acc ++ flattenHood n hd := by
  rw [appendHoodPages_eq, flattenHood_eq]

/-! ## Helper lemmas: the directory scan -/

theorem foldl_fileStep (files : List DirFile) (acc : List FlatItem × List PyStr) :
    files.foldl fileStep acc
      = (acc.1 ++ (files.filter (fun f => jsonSuffix.isSuffixOf f.filename)).flatMap
            fileItems,
         acc.2 ++ (files.filter (fun f => jsonSuffix.isSuffixOf f.filename)).map
            (fun f => stemOf f.filename)) := by
  induction files generalizing acc with
  | nil => simp
  | cons f fs ih =>
    rw [List.foldl_cons, ih]
    by_cases hj : jsonSuffix.isSuffixOf f.filename = true
    · cases hc : f.content with
      | some hd =>
        simp [fileStep, hj, hc, List.filter_cons, fileItems, appendHoodPages_flatten,
          List.append_assoc]
      | none =>
        simp [fileStep, hj, hc, List.filter_cons, fileItems]
    · simp [fileStep, hj, List.filter_cons]

theorem scanDir_eq (files : List DirFile) :
    scanDir files
      = ((files.filter (fun f => jsonSuffix.isSuffixOf f.filename)).flatMap fileItems,
         (files.filter (fun f => jsonSuffix.isSuffixOf f.filename)).map
           (fun f => stemOf f.filename)) := by
  unfold scanDir
  rw [foldl_fileStep]
  rfl

/-! ## Helper lemmas: chunking -/

theorem pySlice_eq_drop_take {α : Type} (xs : List α) (c i : Nat) :
    pySlice xs (i * c) (min ((i + 1) * c) xs.length) = (xs.drop (i * c)).take c := by
  unfold pySlice
  rw [List.drop_take, List.take_eq_take, List.length_drop]
  have h : (i + 1) * c = i * c + c := by ring
  rw [h]
  omega

theorem chunksOf_map_eq {α : Type} (c : Nat) (xs : List α) :
    chunksOf c xs
      = (List.range ((xs.length + c - 1) / c)).map (fun i => (xs.drop (i * c)).take c) := by
  unfold chunksOf
  exact List.map_congr_left (fun i _ => pySlice_eq_drop_take xs c i)

theorem length_chunksOf {α : Type} (c : Nat) (xs : List α) :
    (chunksOf c xs).length = (xs.length + c - 1) / c := by
  unfold chunksOf
  simp

theorem chunksOf_nil {α : Type} (c : Nat) (hc : 1 ≤ c) : chunksOf c ([] : List α) = [] := by
  unfold chunksOf
  have h : ((([] : List α).length) + c - 1) / c = 0 := by
    simp only [List.length_nil]
    exact Nat.div_eq_of_lt (by omega)
  rw [h]
  rfl

theorem totalChunks_succ (c n : Nat) (hc : 1 ≤ c) (hn : 1 ≤ n) :
    (n + c - 1) / c = (n - c + c - 1) / c + 1 := by
  have h1 : n + c - 1 = (n - 1) + c := by omega
  rw [h1, Nat.add_div_right _ (by omega : 0 < c)]
  rcases le_or_lt n c with h | h
  · have h2 : n - c + c - 1 = c - 1 := by omega
    rw [h2, Nat.div_eq_of_lt (by omega : n - 1 < c), Nat.div_eq_of_lt (by omega : c - 1 < c)]
  · have h2 : n - c + c - 1 = n - 1 := by omega
    rw [h2]

theorem chunksOf_cons {α : Type} (c : Nat) (hc : 1 ≤ c) (xs : List α) (hxs : xs ≠ []) :
    chunksOf c xs = xs.take c :: chunksOf c (xs.drop c) := by
  have hn : 1 ≤ xs.length := List.length_pos.mpr hxs
  rw [chunksOf_map_eq, chunksOf_map_eq, List.length_drop]
  rw [totalChunks_succ c xs.length hc hn]
  rw [List.range_succ_eq_map, List.map_cons, List.map_map]
  congr 1
  · simp
  · apply List.map_congr_left
    intro i _
    simp only [Function.comp_apply]
    rw [List.drop_drop]
    rw [Nat.succ_mul, Nat.add_comm]

theorem chunksOf_flatten_aux {α : Type} (c : Nat) (hc : 1 ≤ c) :
    ∀ (n : Nat) (xs : List α), xs.length = n → (chunksOf c xs).flatten = xs := by
  intro n
  induction n using Nat.strong_induction_on with
  | _ n ih =>
    intro xs hlen
    by_cases hxs : xs = []
    · subst hxs
      rw [chunksOf_nil c hc]
      rfl
    · rw [chunksOf_cons c hc xs hxs, List.flatten_cons]
      have hpos : 0 < xs.length := List.length_pos.mpr hxs
      have hlt : (xs.drop c).length < n := by
        rw [List.length_drop]
        omega
      rw [ih _ hlt (xs.drop c) rfl]
      exact List.take_append_drop c xs

theorem chunksOf_flatten {α : Type} (c : Nat) (hc : 1 ≤ c) (xs : List α) :
    (chunksOf c xs).flatten = xs :=
  chunksOf_flatten_aux c hc xs.length xs rfl

theorem chunksOf_get (c : Nat) (xs : List FlatItem) (i : Nat)
    (h : i < (chunksOf c xs).length) :
    (chunksOf c xs).get ⟨i, h⟩
      = pySlice xs (i * c) (min ((i + 1) * c) xs.length) := by
  simp [chunksOf, List.get_eq_getElem]

/-! ## Helper lemmas: counting projected items -/

theorem countP_hood_items (n : PyStr) (cards : List Card) :
    (cards.map (hoodItem n)).countP (fun it => it.source.t == 'h') = cards.length := by
  rw [List.countP_map]
  apply List.countP_eq_length.mpr
  intro a _
  rfl

theorem countP_burb_items_t (n : PyStr) (bs : List Burb) :
    (bs.flatMap (fun b => b.cards.map (burbItem n b.name))).countP
      (fun it => it.source.t == 'h') = 0 := by
  induction bs with
  | nil => rfl
  | cons b bs ih =>
    rw [List.flatMap_cons, List.countP_append, ih, List.countP_map]
    have h0 : (b.cards.countP ((fun it => it.source.t == 'h') ∘ burbItem n b.name)) = 0 := by
      apply List.countP_eq_zero.mpr
      intro a _
      simp [burbItem]
    rw [h0]

theorem countP_burb_items_b (n bn : PyStr) (bs : List Burb) :
    (bs.flatMap (fun b => b.cards.map (burbItem n b.name))).countP
        (fun it => it.source.b == some bn)
      = ((bs.filter (fun b => b.name == bn)).map (fun b => b.cards.length)).sum := by
  induction bs with
  | nil => rfl
  | cons b bs ih =>
    rw [List.flatMap_cons, List.countP_append, ih, List.countP_map, List.filter_cons]
    by_cases hb : b.name = bn
    · subst hb
      rw [if_pos (beq_self_eq_true b.name), List.map_cons, List.sum_cons]
      congr 1
      apply List.countP_eq_length.mpr
      intro a _
      simp [burbItem]
    · have hbeq : (b.name == bn) = false := beq_eq_false_iff_ne.mpr hb
      rw [if_neg (by simp [hbeq])]
      have h0 : b.cards.countP ((fun it => it.source.b == some bn) ∘ burbItem n b.name) = 0 := by
        apply List.countP_eq_zero.mpr
        intro a _
        simp [burbItem]
        exact hb
      rw [h0, Nat.zero_add]

/-! ## Helper lemmas: the scraper -/

theorem foldl_burbStep (fetch : PyStr → Option (List CardElement))
    (base_url hood_name : PyStr) (hood_burbs : List PyStr)
    (l : List PyStr) (acc : List Burb × List PyStr) :
    l.foldl (burbStep fetch base_url hood_name hood_burbs) acc
      = (acc.1 ++ (l.filter (fun b => hood_burbs.contains b)).map
            (scrape_burb fetch base_url hood_name),
         acc.2 ++ (l.filter (fun b => hood_burbs.contains b)).map
            (burbUrl base_url hood_name)) := by
  induction l generalizing acc with
  | nil => simp
  | cons b bs ih =>
    rw [List.foldl_cons]
    by_cases hb : hood_burbs.contains b = true
    · have hstep : burbStep fetch base_url hood_name hood_burbs acc b
          = (acc.1 ++ [scrape_burb fetch base_url hood_name b],
             acc.2 ++ [burbUrl base_url hood_name b]) := by
        unfold burbStep
        rw [if_pos hb]
      rw [hstep, ih, List.filter_cons, if_pos hb, List.map_cons, List.map_cons]
      simp [List.append_assoc]
    · have hstep : burbStep fetch base_url hood_name hood_burbs acc b = acc := by
        unfold burbStep
        rw [if_neg hb]
      rw [hstep, ih, List.filter_cons, if_neg hb]

theorem scrape_hood_save_urls (fetch : PyStr → Option (List CardElement))
    (config : Config) (fs : FileSys) (name : PyStr) (burbs : Option (List PyStr)) :
    (scrape_hood_save fetch config fs name burbs).2.2
      = (scrape_hood fetch config name burbs).2 := by
  unfold scrape_hood_save
  rcases h : scrape_hood fetch config name burbs with ⟨r, urls⟩
  cases r <;> simp

theorem scrape_hood_save_lookup (fetch : PyStr → Option (List CardElement))
    (config : Config) (fs : FileSys) (name other : PyStr) (burbs : Option (List PyStr))
    (hne : name ≠ other) :
    (scrape_hood_save fetch config fs name burbs).2.1.lookup other = fs.lookup other := by
  unfold scrape_hood_save
  rcases h : scrape_hood fetch config name burbs with ⟨r, urls⟩
  cases r with
  | ok hd =>
    simp only
    rw [List.lookup_cons]
    have hbeq : (other == name) = false := beq_eq_false_iff_ne.mpr (fun he => hne he.symm)
    rw [hbeq]
  | error e => simp

theorem foldl_hoodStep (fetch : PyStr → Option (List CardElement)) (config : Config)
    (scraped : List PyStr) (l : List (PyStr × HoodInfo)) (st : FileSys × List PyStr) :
    (l.foldl (hoodStep fetch config scraped) st).2
        = st.2 ++ (l.filter (fun p => !(scraped.contains p.1))).flatMap
            (fun p => (scrape_hood fetch config p.1 none).2)
      ∧ ∀ name, scraped.contains name = true →
          (l.foldl (hoodStep fetch config scraped) st).1.lookup name
            = st.1.lookup name := by
  induction l generalizing st with
  | nil => simp
  | cons p ps ih =>
    rw [List.foldl_cons]
    by_cases hp : scraped.contains p.1 = true
    · have hstep : hoodStep fetch config scraped st p = st := by
        unfold hoodStep
        rw [if_pos hp]
      rw [hstep]
      obtain ⟨h1, h2⟩ := ih st
      refine ⟨?_, h2⟩
      rw [h1, List.filter_cons, hp]
      simp
    · have hstep : hoodStep fetch config scraped st p
          = ((scrape_hood_save fetch config st.1 p.1 none).2.1,
             st.2 ++ (scrape_hood_save fetch config st.1 p.1 none).2.2) := by
        unfold hoodStep
        rw [if_neg hp]
      rw [hstep]
      obtain ⟨h1, h2⟩ := ih ((scrape_hood_save fetch config st.1 p.1 none).2.1,
        st.2 ++ (scrape_hood_save fetch config st.1 p.1 none).2.2)
      constructor
      · rw [h1]
        simp only [scrape_hood_save_urls]
        have hp2 : scraped.contains p.1 = false := Bool.of_not_eq_true hp
        rw [List.filter_cons, hp2]
        simp [List.append_assoc]
      · intro name hname
        rw [h2 name hname]
        simp only
        apply scrape_hood_save_lookup
        intro he
        exact hp (by rw [he]; exact hname)

theorem chunksOf_get_length (c : Nat) (hc : 1 ≤ c) (xs : List FlatItem) (i : Nat)
    (h : i < (chunksOf c xs).length) :
    ((chunksOf c xs).get ⟨i, h⟩).length
      = if i + 1 = (chunksOf c xs).length ∧ xs.length % c ≠ 0
        then xs.length % c else c := by
  have hc0 : 0 < c := hc
  have hval := chunksOf_get c xs i h
  rw [hval]
  unfold pySlice
  rw [List.length_drop, List.length_take]
  rw [(by ring : (i + 1) * c = i * c + c)]
  have hD := length_chunksOf c xs
  have hiD : i + 1 ≤ (xs.length + c - 1) / c := by
    rw [hD] at h
    omega
  have h1 : (i + 1) * c ≤ xs.length + c - 1 := (Nat.le_div_iff_mul_le hc0).mp hiD
  rw [(by ring : (i + 1) * c = i * c + c)] at h1
  have hin : i * c < xs.length := by omega
  by_cases hlast : i + 1 = (chunksOf c xs).length
  · -- last chunk
    have h3 : ¬ (i + 2 ≤ (xs.length + c - 1) / c) := by
      rw [hD] at hlast
      omega
    have h4 : xs.length + c - 1 < (i + 2) * c := by
      by_contra h5
      exact h3 ((Nat.le_div_iff_mul_le hc0).mpr (by omega))
    rw [(by ring : (i + 2) * c = i * c + 2 * c)] at h4
    have hmod : xs.length % c = (xs.length - i * c) % c := by
      conv_lhs => rw [← Nat.sub_add_cancel (Nat.le_of_lt hin)]
      rw [Nat.add_mul_mod_self_right]
    by_cases hr : xs.length - i * c = c
    · have hmod0 : xs.length % c = 0 := by rw [hmod, hr, Nat.mod_self]
      rw [if_neg (fun hcond => hcond.2 hmod0)]
      omega
    · have hrlt : xs.length - i * c < c := by omega
      have hmodr : xs.length % c = xs.length - i * c := by
        rw [hmod, Nat.mod_eq_of_lt hrlt]
      rw [if_pos ⟨hlast, by rw [hmodr]; omega⟩, hmodr]
      omega
  · have h3 : i + 2 ≤ (xs.length + c - 1) / c := by
      rw [hD] at hlast h
      omega
    have h4 : (i + 2) * c ≤ xs.length + c - 1 := (Nat.le_div_iff_mul_le hc0).mp h3
    rw [(by ring : (i + 2) * c = i * c + 2 * c)] at h4
    rw [if_neg (fun hcond => hlast hcond.1)]
    omega

/-! ## Claim theorems -/

/-- C1: For every chunk size `c ≥ 1` and every accumulated flattened-item
sequence `xs` of length `n`, the flattener writes exactly
`⌈n/c⌉ = (n + c - 1) / c` chunk files (`chunksOf` is the chunk layout of
`flatten_geocities_data`, as the last conjunct records); chunk `i` is
exactly the contiguous slice `xs[i*c : min((i+1)*c, n)]`; every chunk has
`c` items except possibly the last, which has `n % c` items (`c` when
`n % c = 0`); and concatenating all chunks in index order reproduces `xs`
exactly. -/
theorem chunking_correct (xs : List FlatItem) (c : Nat) (hc : 1 ≤ c) :
    (chunksOf c xs).length = (xs.length + c - 1) / c
    ∧ (∀ i (h : i < (chunksOf c xs).length),
        (chunksOf c xs).get ⟨i, h⟩ = pySlice xs (i * c) (min ((i + 1) * c) xs.length))
    ∧ (∀ i (h : i < (chunksOf c xs).length),
        ((chunksOf c xs).get ⟨i, h⟩).length
          = if i + 1 = (chunksOf c xs).length ∧ xs.length % c ≠ 0
            then xs.length % c else c)
    ∧ (chunksOf c xs).flatten = xs
    ∧ ∀ files : List DirFile, (flatten_geocities_data files c).2
        = chunksOf c (scanDir files).1 :=
  ⟨length_chunksOf c xs, fun i h => chunksOf_get c xs i h,
   fun i h => chunksOf_get_length c hc xs i h, chunksOf_flatten c hc xs,
   fun _ => rfl⟩

/-- C1 witness: the theorem applied at a sequence of five items and chunk
size two: three chunks whose concatenation is the input. -/
theorem chunking_correct_witness :
    (chunksOf 2 (List.replicate 5 itemH)).length = 3
    ∧ (chunksOf 2 (List.replicate 5 itemH)).flatten = List.replicate 5 itemH := by
  obtain ⟨h1, _, _, h4, _⟩ := chunking_correct (List.replicate 5 itemH) 2 (by decide)
  exact ⟨h1.trans (by decide), h4⟩

/-- C2 counterexample: on a directory with one valid file `good.json` and
one corrupt file `bad.json`, the corrupt file's stem `bad` DOES appear in
the metadata's `hoods` list, because `flatten_geocities_data` records the
name before attempting to parse the file — refuting the claim that it is
absent. -/
theorem corrupt_name_in_hoods :
    pstr "bad" ∈ (flatten_geocities_data
      [⟨pstr "good.json",
        some ⟨pstr "good", [], [], [⟨pstr "t", pstr "u", [], false⟩], 1, [], 0⟩⟩,
       ⟨pstr "bad.json", none⟩] 10).1.hoods := by
  decide

/-- C2 (amended): flattening a directory with corrupt files alongside valid
ones produces output covering exactly the parsed (valid) groups' items — a
corrupt file contributes no items — but every `.json` file's stem,
including a corrupt file's, appears in the metadata's `hoods` list. -/
theorem flatten_tolerates_corrupt (files : List DirFile) (c : Nat) (hc : 1 ≤ c) :
    (flatten_geocities_data files c).2.flatten
        = (files.filter (fun f => jsonSuffix.isSuffixOf f.filename)).flatMap fileItems
    ∧ ∀ f ∈ files, jsonSuffix.isSuffixOf f.filename = true →
        stemOf f.filename ∈ (flatten_geocities_data files c).1.hoods := by
  constructor
  · show (chunksOf c (scanDir files).1).flatten = _
    rw [chunksOf_flatten c hc, scanDir_eq]
  · intro f hf hjson
    show stemOf f.filename ∈ sortHoods (scanDir files).2
    unfold sortHoods
    rw [List.Perm.mem_iff (List.perm_insertionSort _ _), List.mem_dedup, scanDir_eq]
    exact List.mem_map_of_mem _ (List.mem_filter.mpr ⟨hf, hjson⟩)

/-- C2 witness: the amended theorem applied to a directory holding only a
corrupt file: its stem still appears in `hoods`. -/
theorem flatten_tolerates_corrupt_witness :
    pstr "bad" ∈ (flatten_geocities_data [⟨pstr "bad.json", none⟩] 10).1.hoods := by
  have h := (flatten_tolerates_corrupt [⟨pstr "bad.json", none⟩] 10 (by decide)).2
  exact h ⟨pstr "bad.json", none⟩ (by decide) (by decide)

/-- C3: for every run of `flatten_geocities_data`, `total_pages` equals the
sum of the lengths of all written chunks, `total_hoods` equals the number
of distinct group names encountered during the directory scan, `chunks`
equals the number of chunk files written, and `hoods` is a sorted (by the
code-point lexicographic string order) duplicate-free sequence of exactly
those encountered group names. -/
theorem metadata_correct (files : List DirFile) (c : Nat) (hc : 1 ≤ c) :
    (flatten_geocities_data files c).1.total_pages
        = ((flatten_geocities_data files c).2.map List.length).sum
    ∧ (flatten_geocities_data files c).1.total_hoods
        = (((files.filter (fun f => jsonSuffix.isSuffixOf f.filename)).map
            (fun f => stemOf f.filename)).dedup).length
    ∧ (flatten_geocities_data files c).1.chunks
        = (flatten_geocities_data files c).2.length
    ∧ List.Sorted (fun a b : PyStr => a ≤ b) (flatten_geocities_data files c).1.hoods
    ∧ (flatten_geocities_data files c).1.hoods.Nodup
    ∧ ∀ s : PyStr, (s ∈ (flatten_geocities_data files c).1.hoods
        ↔ s ∈ (files.filter (fun f => jsonSuffix.isSuffixOf f.filename)).map
            (fun f => stemOf f.filename)) := by
  refine ⟨?_, ?_, ?_, ?_, ?_, ?_⟩
  · show (scanDir files).1.length
        = ((chunksOf c (scanDir files).1).map List.length).sum
    rw [← List.length_flatten, chunksOf_flatten c hc]
  · show (scanDir files).2.dedup.length = _
    rw [scanDir_eq]
  · exact (length_chunksOf c (scanDir files).1).symm
  · show List.Sorted _ (sortHoods (scanDir files).2)
    exact List.sorted_insertionSort _ _
  · show (sortHoods (scanDir files).2).Nodup
    unfold sortHoods
    exact (List.Perm.nodup_iff (List.perm_insertionSort _ _)).mpr (List.nodup_dedup _)
  · intro s
    show s ∈ sortHoods (scanDir files).2 ↔ _
    unfold sortHoods
    rw [List.Perm.mem_iff (List.perm_insertionSort _ _), List.mem_dedup, scanDir_eq]

/-- C3 witness: the theorem applied to a concrete two-file directory; the
`hoods` list of that run is sorted. -/
theorem metadata_correct_witness :
    List.Sorted (fun a b : PyStr => a ≤ b)
      (flatten_geocities_data [⟨pstr "b.json", none⟩, ⟨pstr "a.json", none⟩] 10).1.hoods :=
  (metadata_correct [⟨pstr "b.json", none⟩, ⟨pstr "a.json", none⟩] 10 (by decide)).2.2.2.1

/-- C6: each of a group's own cards is projected to exactly one flattened
item tagged `t = 'h'` carrying the group name, each card of each subgroup
to exactly one item tagged `t = 'b'` carrying the group and subgroup
names, preserving per-document, per-card order (first conjunct); the item
count is the total card count, the `'h'`-tagged count is the group's own
card count, and for any subgroup name the count of items carrying it is
the total size of the subgroups with that name (so a group with subgroups
of 3 and 5 cards plus 1 own card yields 9 items: 1 `'h'` and 8 `'b'`
split 3/5 by subgroup name). -/
theorem flatten_projection (hood_name : PyStr) (hd : HoodData) :
    flattenHood hood_name hd
      = hd.cards.map (hoodItem hood_name)
        ++ hd.burbs.flatMap (fun b => b.cards.map (burbItem hood_name b.name))
    ∧ (flattenHood hood_name hd).length
        = hd.cards.length + (hd.burbs.map (fun b => b.cards.length)).sum
    ∧ (flattenHood hood_name hd).countP (fun it => it.source.t == 'h')
        = hd.cards.length
    ∧ ∀ bn : PyStr, (flattenHood hood_name hd).countP (fun it => it.source.b == some bn)
        = ((hd.burbs.filter (fun b => b.name == bn)).map (fun b => b.cards.length)).sum := by
  refine ⟨flattenHood_eq hood_name hd, ?_, ?_, ?_⟩
  · rw [flattenHood_eq, List.length_append, List.length_map, List.length_flatMap]
    congr 1
    congr 1
    apply List.map_congr_left
    intro b _
    simp
  · rw [flattenHood_eq, List.countP_append, countP_hood_items, countP_burb_items_t,
      Nat.add_zero]
  · intro bn
    rw [flattenHood_eq, List.countP_append, countP_burb_items_b]
    have h0 : (hd.cards.map (hoodItem hood_name)).countP
        (fun it => it.source.b == some bn) = 0 := by
      apply List.countP_eq_zero.mpr
      intro a ha
      obtain ⟨c0, _, rfl⟩ := List.mem_map.mp ha
      simp [hoodItem]
    rw [h0, Nat.zero_add]

/-- C4: re-running the full batch with the resume flag enabled leaves
every already-persisted group's file unchanged (its content is looked up
unmodified), and the URLs fetched are exactly those of the groups without
a persisted file, in configuration order — so zero fetches are performed
for any persisted group. -/
theorem resume_skips_persisted (fetch : PyStr → Option (List CardElement))
    (config : Config) (fs0 : FileSys) (name : PyStr)
    (hname : name ∈ fs0.map Prod.fst) :
    (runBatch fetch config true fs0).1.lookup name = fs0.lookup name
    ∧ (runBatch fetch config true fs0).2
        = (config.neighborhoods.filter
            (fun p => !((get_scraped_hoods fs0).contains p.1))).flatMap
          (fun p => (scrape_hood fetch config p.1 none).2) := by
  have hcont : (get_scraped_hoods fs0).contains name = true :=
    List.elem_iff.mpr hname
  obtain ⟨h1, h2⟩ := foldl_hoodStep fetch config (get_scraped_hoods fs0)
    config.neighborhoods (fs0, [])
  exact ⟨h2 name hcont, h1⟩

/-- C4 witness: a two-group configuration with group `a` already persisted
and a fetch oracle that always fails; `a`'s file content is unchanged by
the resumed batch. -/
theorem resume_skips_persisted_witness :
    (runBatch (fun _ => none)
        ⟨pstr "B", [(pstr "a", ⟨[], []⟩), (pstr "b", ⟨[], []⟩)]⟩ true
        [(pstr "a", ⟨pstr "a", [], [], [], 0, [], 0⟩)]).1.lookup (pstr "a")
      = List.lookup (pstr "a") [(pstr "a", ⟨pstr "a", [], [], [], 0, [], 0⟩)] :=
  (resume_skips_persisted (fun _ => none)
    ⟨pstr "B", [(pstr "a", ⟨[], []⟩), (pstr "b", ⟨[], []⟩)]⟩
    [(pstr "a", ⟨pstr "a", [], [], [], 0, [], 0⟩)] (pstr "a") (by decide)).1

/-- C5: every group document assembled by a successful `scrape_hood` run
satisfies `total_pages = len(cards)` and `total_burbs = len(burbs)`, every
subgroup document inside it satisfies `total_pages = len(cards)` — for an
arbitrary fetch oracle (so regardless of per-page fetch failures) and an
arbitrary requested-subgroup list (so regardless of which subgroups were
requested or skipped) — and that same document is what gets persisted. -/
theorem document_totals_invariant (fetch : PyStr → Option (List CardElement))
    (config : Config) (hood_name : PyStr) (burbs : Option (List PyStr))
    (hd : HoodData)
    (h : (scrape_hood fetch config hood_name burbs).1 = Except.ok hd) :
    hd.total_pages = hd.cards.length
    ∧ hd.total_burbs = hd.burbs.length
    ∧ (∀ b ∈ hd.burbs, b.total_pages = b.cards.length)
    ∧ ∀ fs : FileSys,
        (scrape_hood_save fetch config fs hood_name burbs).2.1.lookup hood_name
          = some hd := by
  have hsave : ∀ fs : FileSys,
      (scrape_hood_save fetch config fs hood_name burbs).2.1.lookup hood_name
        = some hd := by
    intro fs
    unfold scrape_hood_save
    rcases hsh : scrape_hood fetch config hood_name burbs with ⟨r, urls⟩
    rw [hsh] at h
    cases r with
    | error e => exact absurd h (by simp)
    | ok hd2 =>
      simp only at h
      injection h with h2
      subst h2
      simp [List.lookup_cons]
  cases hcfg : config.neighborhoods.lookup hood_name with
  | none =>
    unfold scrape_hood at h
    rw [hcfg] at h
    exact absurd h (by simp)
  | some hood_info =>
    unfold scrape_hood at h
    rw [hcfg] at h
    simp only at h
    injection h with h2
    subst h2
    refine ⟨rfl, rfl, ?_, hsave⟩
    intro b hb
    rw [foldl_burbStep] at hb
    simp only [List.nil_append] at hb
    obtain ⟨bname, hmem, rfl⟩ := List.mem_map.mp hb
    rfl

/-- C5 witness: the theorem applied to a one-group, one-burb configuration
with an always-failing fetch oracle. -/
theorem document_totals_invariant_witness :
    ((⟨pstr "a", [], pstr "B/a", [], 0, [⟨pstr "b1", pstr "B/a/b1", [], 0⟩], 1⟩ :
        HoodData).total_pages
      = (⟨pstr "a", [], pstr "B/a", [], 0, [⟨pstr "b1", pstr "B/a/b1", [], 0⟩], 1⟩ :
        HoodData).cards.length) := by
  obtain ⟨h1, _, _, _⟩ := document_totals_invariant (fun _ => none)
    ⟨pstr "B", [(pstr "a", ⟨[], [pstr "b1"]⟩)]⟩ (pstr "a") none
    ⟨pstr "a", [], pstr "B/a", [], 0, [⟨pstr "b1", pstr "B/a/b1", [], 0⟩], 1⟩ (by decide)
  exact h1

/-- C7 counterexample: the code computes the URL with `str.replace`, which
removes every occurrence of `www.geocities.com/`, not only a leading
prefix: on the subtitle `xwww.geocities.com/y` (no `Last modified:`
marker) the code yields `xy`, while the claimed prefix-stripping
(`spec_url`, modelled from the spec) leaves the text unchanged. -/
theorem url_not_prefix_stripped :
    (processCard ⟨some (pstr "T"), some (pstr "xwww.geocities.com/y")⟩).map Card.url
      = some (pstr "xy")
    ∧ spec_url (pstr "xwww.geocities.com/y") = pstr "xwww.geocities.com/y"
    ∧ pstr "xy" ≠ pstr "xwww.geocities.com/y" :=
  ⟨by decide, by decide, by decide⟩

/-- C7 (amended): for every card extracted with a present subtitle, the
`url` field is the pre-`Last modified:` portion of the subtitle, stripped
of surrounding whitespace, with **every occurrence** of
`www.geocities.com/` removed (`str.replace`, not a prefix strip); a
subtitle containing no marker (split yields the single part `[subtitle]`)
gives `last_modified = ""` and `url` equal to the full subtitle stripped
and occurrence-removed, without raising. -/
theorem url_replace_semantics (tl : Option PyStr) (subtitle : PyStr) :
    ∃ card, processCard ⟨tl, some subtitle⟩ = some card
      ∧ card.url = pyReplace (pyStrip ((pySplit subtitle lastModifiedMarker).headD []))
          wwwGeocities []
      ∧ (pySplit subtitle lastModifiedMarker = [subtitle] →
          card.last_modified = [] ∧ card.url = pyReplace (pyStrip subtitle) wwwGeocities []) := by
  refine ⟨_, rfl, rfl, fun h => ⟨?_, ?_⟩⟩
  · show (match pySplit subtitle lastModifiedMarker with
      | _ :: p1 :: _ => pyStrip p1
      | _ => []) = []
    rw [h]
  · show pyReplace (pyStrip ((pySplit subtitle lastModifiedMarker).headD []))
        wwwGeocities [] = _
    rw [h]
    rfl

/-- C7 witness: the amended theorem applied to a markerless subtitle whose
text starts with the prefix after stripping. -/
theorem url_replace_semantics_witness :
    ∃ card, processCard ⟨some (pstr "T"), some (pstr " www.geocities.com/a ")⟩ = some card
      ∧ card.url = pstr "a" ∧ card.last_modified = [] := by
  obtain ⟨card, hc, hurl, himp⟩ :=
    url_replace_semantics (some (pstr "T")) (pstr " www.geocities.com/a ")
  obtain ⟨hlm, hurl2⟩ := himp (by decide)
  refine ⟨card, hc, ?_, hlm⟩
  rw [hurl2]
  decide

/-- C8: a whole-page fetch failure (`fetch url = none`, covering network
errors and non-success statuses) makes `get_burb_cards` return the empty
card list rather than propagate, and `scrape_hood` still assembles its
group document and persists it (for any fetch oracle, however many pages
fail). -/
theorem page_failure_tolerated (fetch : PyStr → Option (List CardElement))
    (config : Config) (fs : FileSys) (hood_name : PyStr) (hood_info : HoodInfo)
    (hcfg : config.neighborhoods.lookup hood_name = some hood_info)
    (url : PyStr) (hfail : fetch url = none) :
    get_burb_cards fetch url = []
    ∧ ∃ hd, (scrape_hood fetch config hood_name none).1 = Except.ok hd
        ∧ (scrape_hood_save fetch config fs hood_name none).2.1.lookup hood_name
            = some hd := by
  constructor
  · unfold get_burb_cards
    rw [hfail]
  · have hok : ∃ hd, (scrape_hood fetch config hood_name none).1 = Except.ok hd := by
      unfold scrape_hood
      rw [hcfg]
      exact ⟨_, rfl⟩
    obtain ⟨hd, hokk⟩ := hok
    refine ⟨hd, hokk, ?_⟩
    unfold scrape_hood_save
    rcases hsh : scrape_hood fetch config hood_name none with ⟨r, urls⟩
    rw [hsh] at hokk
    cases r with
    | error e => exact absurd hokk (by simp)
    | ok hd2 =>
      simp only at hokk
      injection hokk with h2
      subst h2
      simp [List.lookup_cons]

/-- C8 witness: the theorem applied with an oracle on which every fetch
fails; the hood page yields no cards, and the document persists anyway. -/
theorem page_failure_tolerated_witness :
    get_burb_cards (fun _ => none) (pstr "B/a") = []
    ∧ ∃ hd, (scrape_hood (fun _ => none)
          ⟨pstr "B", [(pstr "a", ⟨[], []⟩)]⟩ (pstr "a") none).1 = Except.ok hd
        ∧ (scrape_hood_save (fun _ => none)
            ⟨pstr "B", [(pstr "a", ⟨[], []⟩)]⟩ [] (pstr "a") none).2.1.lookup (pstr "a")
          = some hd :=
  page_failure_tolerated (fun _ => none) ⟨pstr "B", [(pstr "a", ⟨[], []⟩)]⟩ []
    (pstr "a") ⟨[], []⟩ (by decide) (pstr "B/a") rfl

/-- C9: `scrape_hood` produces the `ValueError`
`"Hood <name> not found in config"` precisely when the requested group
name is absent from the configuration's `neighborhoods` mapping; when the
name is present it returns a group document and no such error — the error
is surfaced to the caller, not caught inside `scrape_hood`. -/
theorem hood_not_found_iff (fetch : PyStr → Option (List CardElement))
    (config : Config) (hood_name : PyStr) (burbs : Option (List PyStr)) :
    ((scrape_hood fetch config hood_name burbs).1
        = Except.error (notFoundMsg hood_name)
      ↔ config.neighborhoods.lookup hood_name = none)
    ∧ ∀ info, config.neighborhoods.lookup hood_name = some info →
        ∃ hd, (scrape_hood fetch config hood_name burbs).1 = Except.ok hd := by
  constructor
  · constructor
    · intro h
      cases hcfg : config.neighborhoods.lookup hood_name with
      | none => rfl
      | some info =>
        unfold scrape_hood at h
        rw [hcfg] at h
        exact absurd h (by simp)
    · intro h
      unfold scrape_hood
      rw [h]
  · intro info hinfo
    unfold scrape_hood
    rw [hinfo]
    exact ⟨_, rfl⟩

/-- C9 witness: requesting a group absent from an empty configuration
produces exactly the lookup error. -/
theorem hood_not_found_iff_witness :
    (scrape_hood (fun _ => none) ⟨pstr "B", []⟩ (pstr "z") none).1
      = Except.error (notFoundMsg (pstr "z")) :=
  ((hood_not_found_iff (fun _ => none) ⟨pstr "B", []⟩ (pstr "z") none).1).mpr (by decide)

/-- C10: a card container element whose subtitle sub-element is absent
produces no item record — the loop step leaves the accumulator unchanged —
even when the card has a title link (`tl` arbitrary, in particular
`some _`). The drop is silent: the only warning site in the source's card
loop is its exception handler, and this path takes the plain `if` fall-
through instead. -/
theorem missing_subtitle_drops_card (tl : Option PyStr) (acc : List Card) :
    processCard ⟨tl, none⟩ = none ∧ cardStep acc ⟨tl, none⟩ = acc :=
  ⟨rfl, rfl⟩

end Geocities
